import Mathlib

/-!
# Verification of the LSTM mean-variance walk-forward notebook

A shallow embedding of `src/risk_model.ipynb` (a single-notebook walk-forward
volatility forecasting and portfolio-risk pipeline) together with proofs that
settle a frozen list of claims about it.

Conventions of the embedding:

* Python floats are modelled as exact rationals (`ℚ`).  IEEE special values
  only arise in this code through division by zero followed by
  `np.nan_to_num`; that composite is modelled exactly (see `sanitize_entry`).
* `np.sqrt` is transcendental, so standard deviations obtained from it are
  carried as an explicit vector `σ` constrained by `0 ≤ σ i` and
  `σ i * σ i = variance i` — precisely the defining properties of the square
  root that the code relies on.
* `np.exp` is transcendental, so the pointwise conversion
  `x ↦ exp x − 1` of 7-day log returns to simple returns is carried as an
  abstract pointwise map `g : ℚ → ℚ`; all statements hold for every `g`,
  in particular for the true conversion.
* Stateful PyTorch code (the per-step epoch loop, optimizer construction,
  Monte-Carlo sampling) is embedded as explicit state-passing functions.
-/

namespace RiskModel

/-! ## Hyperparameters (source cell "Hyperparameters") -/

/-- `horizon = 7`: prediction horizon in days. -/
def horizon : ℕ := 7

/-- `sequence_length = 35`: input sequence length. -/
def sequence_length : ℕ := 35

/-- `batch_size = 64`. -/
def batch_size : ℕ := 64

/-- `num_epochs = 50`: max epochs per retraining. -/
def num_epochs : ℕ := 50

/-- `patience = 3`: early stopping patience. -/
def patience : ℕ := 3

/-- `mc_samples = 90`: Monte Carlo samples for uncertainty. -/
def mc_samples : ℕ := 90

/-- `lambda_dir = 0.6`: directional loss weight. -/
def lambda_dir : ℚ := 3 / 5

/-! ## Sequence Windower (source: `create_sequences`)

```python
def create_sequences(X_df, Y_df, seq_len):
    Xs, Ys = [], []
    for i in range(len(X_df) - seq_len):
        Xs.append(X_df.iloc[i:i + seq_len].values)
        Ys.append(Y_df.iloc[i + seq_len - 1].values)
    return np.array(Xs), np.array(Ys)
```

A table is modelled as a list of rows.  Python's `range(n)` of a negative
number is empty, which coincides with truncating `ℕ`-subtraction in
`List.range (X.length - seq_len)`.  `Y_df.iloc[k]` for `0 ≤ k < len(Y_df)`
is `Y.getD k default`; the walk-forward driver only ever calls this with
aligned tables (`len(Y_df) = len(X_df)`), for which every access is in
bounds when `1 ≤ seq_len`. -/

def create_sequences {F G : Type} [Inhabited G] (X : List F) (Y : List G)
    (seq_len : ℕ) : List (List F) × List G :=
  ((List.range (X.length - seq_len)).map fun i => (X.drop i).take seq_len,
   (List.range (X.length - seq_len)).map fun i => Y.getD (i + seq_len - 1) default)

/-- `assert N > 0, "No sequences generated!"` — the fatal configuration check
executed before the walk-forward loop. -/
def sequence_guard (N : ℕ) : Except String ℕ :=
  if 0 < N then .ok N else .error "No sequences generated!"

/-! ## Composite loss (source: training loop body)

```python
mse_loss = nn.MSELoss()(y_pred, y_batch)
true_dir = torch.sign(y_batch[:, 1:] - y_batch[:, :-1])
pred_dir = torch.sign(y_pred[:, 1:] - y_batch[:, :-1])
bce_loss = nn.BCEWithLogitsLoss()(pred_dir, (true_dir > 0).float())
loss = mse_loss + lambda_dir * bce_loss
```

A batch is a list of rows (one per batch element), each row a list of
per-asset values.  `BCEWithLogitsLoss` involves `log`/`sigmoid`
(transcendental), so it is carried as an abstract functional `bce`; the
claim under verification is about which logit/label tensors are passed to
it, which is fully captured this way. -/

/-- `torch.sign`. -/
def signQ (x : ℚ) : ℚ := if x < 0 then -1 else if x = 0 then 0 else 1

/-- Elementwise difference of two batches (`a - b` in torch). -/
def matSub (a b : List (List ℚ)) : List (List ℚ) :=
  (a.zip b).map fun r => (r.1.zip r.2).map fun e => e.1 - e.2

/-- Elementwise `torch.sign` of a batch. -/
def matSign (a : List (List ℚ)) : List (List ℚ) := a.map (List.map signQ)

/-- `x[:, 1:]` for a batch: drop the first column. -/
def colTail (a : List (List ℚ)) : List (List ℚ) := a.map List.tail

/-- `x[:, :-1]` for a batch: drop the last column. -/
def colInit (a : List (List ℚ)) : List (List ℚ) := a.map List.dropLast

/-- `nn.MSELoss()` with default mean reduction: mean of squared differences over all
elements.  (For the empty batch `ℚ`-division by zero yields `0`; torch would
give NaN, but the loop never runs on an empty batch.) -/
def mse_loss (pred tgt : List (List ℚ)) : ℚ :=
  (((pred.zip tgt).map fun r => ((r.1.zip r.2).map fun e => (e.1 - e.2) ^ 2).sum).sum) /
    ((pred.map List.length).sum : ℕ)

/-- `true_dir = torch.sign(y_batch[:, 1:] - y_batch[:, :-1])`. -/
def true_dir (y_batch : List (List ℚ)) : List (List ℚ) :=
  matSign (matSub (colTail y_batch) (colInit y_batch))

/-- `pred_dir = torch.sign(y_pred[:, 1:] - y_batch[:, :-1])` — note the second
operand is the *true* batch, shifted, not the prediction. -/
def pred_dir (y_pred y_batch : List (List ℚ)) : List (List ℚ) :=
  matSign (matSub (colTail y_pred) (colInit y_batch))

/-- `(true_dir > 0).float()`. -/
def bce_labels (y_batch : List (List ℚ)) : List (List ℚ) :=
  (true_dir y_batch).map (List.map fun s => if 0 < s then (1 : ℚ) else 0)

/-- `loss = mse_loss + lambda_dir * bce_loss`, with the binary cross entropy
functional abstract (it is applied to logits `pred_dir` and labels
`(true_dir > 0).float()`). -/
def composite_loss (bce : List (List ℚ) → List (List ℚ) → ℚ)
    (y_pred y_batch : List (List ℚ)) : ℚ :=
  mse_loss y_pred y_batch + lambda_dir * bce (pred_dir y_pred y_batch) (bce_labels y_batch)

/-- Spec side (claim C4's words): logits are
`sign(predicted[:, 1:] − true[:, :-1])`. -/
def claim_logits (y_pred y_batch : List (List ℚ)) : List (List ℚ) :=
  matSign (matSub (colTail y_pred) (colInit y_batch))

/-- Spec side (claim C4's words): labels are
`(sign(true[:, 1:] − true[:, :-1]) > 0)` as floats. -/
def claim_labels (y_batch : List (List ℚ)) : List (List ℚ) :=
  (matSign (matSub (colTail y_batch) (colInit y_batch))).map
    (List.map fun s => if 0 < s then (1 : ℚ) else 0)

/-! ## Allocation weights (source)

```python
weights = 1 / (y_pred_std[0] + 1e-6)
weights /= weights.sum()
``` -/

/-- Uncertainty-based allocation weights. -/
def alloc_weights (s : List ℚ) : List ℚ :=
  let inv := s.map fun x => 1 / (x + 1 / 1000000)
  inv.map fun x => x / inv.sum

/-! ## Exponentially weighted covariance (source: `window_data.ewm(span=horizon, adjust=False).cov()`)

pandas `ewm(span=H, adjust=False)` uses `α = 2 / (H + 1)`.  With
`adjust=False` the weight, at final time `n-1`, of observation `k`
(for `k = 0, …, n-1`) is `(1-α)^(n-1)` for `k = 0` and `α (1-α)^(n-1-k)`
for `k ≥ 1`; these sum to 1.  The covariance with the default `bias=False`
is the weighted covariance about the weighted means, multiplied by the
de-biasing factor `1 / (1 - Σ w²)`; pandas emits NaN when that denominator
is not positive (a single observation), which we model as `0` — the
downstream `corr_matrix` sanitizer maps both a NaN covariance and a zero
covariance to the same correlation entry, so the two models agree where the
value is consumed.  The code takes `.loc[last_timestamp]`, i.e. exactly the
final-time matrix computed here. -/

/-- The all-zero asset vector (used as the out-of-range default for row
accesses that the code never performs out of range). -/
def vzero {A : ℕ} : Fin A → ℚ := fun _ => 0

/-- `α = 2 / (span + 1)`. -/
def ewm_alpha (span : ℕ) : ℚ := 2 / (span + 1)

/-- Weight of observation `k` among `n` at the final timestamp
(`adjust=False`). -/
def ewm_w (α : ℚ) (n k : ℕ) : ℚ :=
  if k = 0 then (1 - α) ^ (n - 1) else α * (1 - α) ^ (n - 1 - k)

/-- Exponentially weighted mean of component `i` of the series. -/
def ewm_mean {A : ℕ} (α : ℚ) (xs : List (Fin A → ℚ)) (i : Fin A) : ℚ :=
  ∑ k ∈ Finset.range xs.length, ewm_w α xs.length k * xs.getD k vzero i

/-- Weighted covariance about the weighted means (before de-biasing). -/
def ewm_cov_raw {A : ℕ} (α : ℚ) (xs : List (Fin A → ℚ)) (i j : Fin A) : ℚ :=
  ∑ k ∈ Finset.range xs.length,
    ewm_w α xs.length k * (xs.getD k vzero i - ewm_mean α xs i) *
      (xs.getD k vzero j - ewm_mean α xs j)

/-- `bias=False` de-biasing factor `1 / (1 - Σ w²)`; `0` stands for the NaN
pandas produces when the denominator is not positive. -/
def ewm_debias (α : ℚ) (n : ℕ) : ℚ :=
  let s2 := ∑ k ∈ Finset.range n, ewm_w α n k ^ 2
  if 1 - s2 ≤ 0 then 0 else (1 - s2)⁻¹

/-- The final-time exponentially weighted covariance matrix of a series. -/
def ewm_cov {A : ℕ} (α : ℚ) (xs : List (Fin A → ℚ)) :
    Matrix (Fin A) (Fin A) ℚ :=
  fun i j => ewm_debias α xs.length * ewm_cov_raw α xs i j

/-! ## Correlation estimate pipeline (source, walk-forward loop)

```python
log7 = log_returns.rolling(window=horizon).sum().dropna()
log7_window = log7.iloc[: pred_idx + sequence_length]
window_data = np.exp(log7_window) - 1
ewm_cov = window_data.ewm(span=horizon, adjust=False).cov()
cov_matrix = ewm_cov.loc[last_timestamp].values.reshape(A, A)
```

`log_returns` here is the full-index frame whose row 0 is NaN (the first
log return does not exist).  We represent the *defined* log returns as a
list `r`: list index `k` is original frame row `k + 1`.  Consequently
`rolling(window=H).sum().dropna()` is the list of sums of `H` consecutive
entries of `r`: its entry `j` (original frame row `j + H`) sums
`r[j], …, r[j+H-1]`.  The windows of the rolling sum *overlap* (one sum per
day, stride 1).

Row alignment facts used in the claims (derived by tracing the notebook's
index arithmetic): the features/targets table drops original rows 0–1 and
the last `H` rows, so prediction window `pred_idx` ends at original row
`pred_idx + L + 1`, while the *recorded* anchor date of the step is
`log_returns.index[pred_idx + L - 1]`, i.e. original row `pred_idx + L - 1`,
which is `r`-index `pred_idx + L - 2`.  The truncation
`log7.iloc[: pred_idx + L]` therefore keeps rolling sums whose last window
covers `r`-indices `pred_idx + L - 1, …, pred_idx + L + H - 2` — reaching
`H` days *beyond* the recorded anchor. -/

/-- `log_returns.rolling(window=H).sum().dropna()` over the defined
log-return list `r`: overlapping sums of `H` consecutive days. -/
def rolling_sums {A : ℕ} (H : ℕ) (r : List (Fin A → ℚ)) : List (Fin A → ℚ) :=
  (List.range (r.length + 1 - H)).map fun j i =>
    ∑ k ∈ Finset.range H, r.getD (j + k) vzero i

/-- Aggregation into *non-overlapping* `H`-day sums (what the spec sentence
claims the code does): consecutive disjoint chunks of `H` days. -/
def chunk_sums {A : ℕ} (H : ℕ) (r : List (Fin A → ℚ)) : List (Fin A → ℚ) :=
  (List.range (r.length / H)).map fun j i =>
    ∑ k ∈ Finset.range H, r.getD (j * H + k) vzero i

/-- The covariance estimate the code computes at a step: overlapping rolling
`H`-day sums, truncated to the first `pred_idx + L` sums, converted pointwise
by `g` (in the source, `g x = exp x - 1`), then the final-time EW (span `H`)
covariance matrix. -/
def cov_estimate {A : ℕ} (g : ℚ → ℚ) (H L pred_idx : ℕ)
    (r : List (Fin A → ℚ)) : Matrix (Fin A) (Fin A) ℚ :=
  ewm_cov (ewm_alpha H)
    (((rolling_sums H r).take (pred_idx + L)).map fun row i => g (row i))

/-- The covariance estimate described by the claim's words: *non-overlapping*
`H`-day sums of the log-return history *up to and including the recorded
anchor date* (`r`-index `pred_idx + L - 2`, i.e. the first `pred_idx + L - 1`
entries of `r`), converted pointwise by `g`, then the final-time EW (span
`H`) covariance matrix. -/
def cov_estimate_claim {A : ℕ} (g : ℚ → ℚ) (H L pred_idx : ℕ)
    (r : List (Fin A → ℚ)) : Matrix (Fin A) (Fin A) ℚ :=
  ewm_cov (ewm_alpha H)
    ((chunk_sums H (r.take (pred_idx + L - 1))).map fun row i => g (row i))

/-- The amended description of the code's aggregation: *overlapping* rolling
`H`-day sums (one per day), truncated to the first `pred_idx + L` sums — the
last of which covers log returns up to `H` days beyond the recorded anchor
date — converted pointwise by `g`, then the final-time EW (span `H`)
covariance matrix. -/
def cov_estimate_amended {A : ℕ} (g : ℚ → ℚ) (H L pred_idx : ℕ)
    (r : List (Fin A → ℚ)) : Matrix (Fin A) (Fin A) ℚ :=
  ewm_cov (ewm_alpha H)
    (((rolling_sums H r).take (pred_idx + L)).map fun row i => g (row i))

/-! ## Correlation sanitization (source)

```python
variances = np.diag(cov_matrix)
stds      = np.sqrt(variances)
corr_matrix = cov_matrix / np.outer(stds, stds)
corr_matrix = np.nan_to_num(corr_matrix, nan=0, posinf=1, neginf=-1)
corr_matrix = np.clip(corr_matrix, -1, 1)
```

The stds vector `σ` is carried explicitly (see the file header); under the
hypotheses `0 ≤ σ i` and `σ i * σ i = cov i i` it is exactly `np.sqrt` of
the diagonal.  IEEE division of `c` by `0` gives NaN (`c = 0`), `+inf`
(`c > 0`) or `-inf` (`c < 0`); `np.nan_to_num` then substitutes `0`, `1`,
`-1` respectively, and `np.clip(x, -1, 1) = min(max(x, -1), 1)` is applied
to every entry. -/

/-- One entry: IEEE `c / d` followed by `nan_to_num(nan=0, posinf=1,
neginf=-1)` followed by `clip(·, -1, 1)`. -/
def sanitize_entry (c d : ℚ) : ℚ :=
  if d = 0 then (if c = 0 then 0 else if 0 < c then 1 else -1)
  else min (max (c / d) (-1)) 1

/-- The sanitized correlation matrix built from a covariance matrix and the
std vector `σ = np.sqrt(np.diag(cov))`. -/
def corr_matrix {A : ℕ} (cov : Matrix (Fin A) (Fin A) ℚ) (σ : Fin A → ℚ) :
    Matrix (Fin A) (Fin A) ℚ :=
  fun i j => sanitize_entry (cov i j) (σ i * σ j)

/-! ## Covariance reconstruction and portfolio variance (source)

```python
D_pred   = np.diag(y_pred_mean[0])
cov_pred = D_pred @ corr_matrix @ D_pred
vol_pred_port = np.sqrt(weights @ cov_pred @ weights)
D_true   = np.diag(y_true[0])
cov_true = D_true @ corr_matrix @ D_true
vol_true_port = np.sqrt(weights @ cov_true @ weights)
``` -/

/-- `np.diag(d) @ C @ np.diag(d)`. -/
def reconstruct_cov {A : ℕ} (d : Fin A → ℚ) (C : Matrix (Fin A) (Fin A) ℚ) :
    Matrix (Fin A) (Fin A) ℚ :=
  Matrix.diagonal d * C * Matrix.diagonal d

/-- `weights @ C @ weights`: the square-root argument of the portfolio
volatility. -/
def port_var {A : ℕ} (w : Fin A → ℚ) (C : Matrix (Fin A) (Fin A) ℚ) : ℚ :=
  Matrix.dotProduct w (C.mulVec w)

/-! ## Per-step epoch loop with early stopping (source)

```python
optimizer = optim.Adam(model.parameters(), lr=learning_rate)
best_loss = float('inf')
wait = 0
best_model_state = model.state_dict()
for epoch in range(num_epochs):
    model.train()
    for X_batch, y_batch in train_loader:
        ... loss = mse_loss + lambda_dir * bce_loss; loss.backward(); optimizer.step()
    if loss.item() < best_loss:
        best_loss = loss.item(); wait = 0
        best_model_state = model.state_dict()
    else:
        wait += 1
        if wait >= patience: break
model.load_state_dict(best_model_state)
```

One epoch of training is an abstract deterministic function
`f : P → P × List ℚ` from the current parameters to the updated parameters
together with the per-batch losses of the epoch; the early-stopping signal
is the loss of the *last* batch (`loss` after the inner `for`).
`best_loss = float('inf')` is `none`; every finite first-epoch loss
satisfies `loss < inf`, so the first epoch unconditionally improves.

The snapshot discipline is parameterized by `save : P → S` and
`load : S → P → P` so that one loop skeleton, transcribed from the source,
can be instantiated with two snapshot semantics:

* **code semantics** (`train_epochs_code`): in PyTorch,
  `model.state_dict()` returns tensors that *share storage* with the live
  parameters (the documentation warns that a snapshot requires
  `copy.deepcopy`), and `optimizer.step()` mutates the parameters in place;
  hence at `load_state_dict` time the saved dict holds the *current*
  parameter values and the restore is a no-op.  So `S = Unit`,
  `save _ = ()`, `load _ p = p`.
* **deep-copy semantics** (`train_epochs_deepcopy`): the snapshot the spec
  describes — `S = P`, `save p = p`, `load s _ = s`. -/

def es_run {P S : Type} (f : P → P × List ℚ) (save : P → S) (load : S → P → P)
    (pat : ℕ) : ℕ → P → Option ℚ → ℕ → S → P
  | 0, p, _, _, snap => load snap p
  | n + 1, p, best, wait, snap =>
    let r := f p
    let loss := r.2.getLastD 0
    let improved : Bool := match best with
      | none => true
      | some b => decide (loss < b)
    if improved then es_run f save load pat n r.1 (some loss) 0 (save r.1)
    else if pat ≤ wait + 1 then load snap r.1
    else es_run f save load pat n r.1 best (wait + 1) snap

/-- The epoch loop as the code executes it (aliased snapshot: `state_dict`
without `deepcopy`, so the final `load_state_dict` restores the current,
i.e. last-epoch, parameters). -/
def train_epochs_code {P : Type} (f : P → P × List ℚ) (numEpochs pat : ℕ)
    (p0 : P) : P :=
  es_run f (fun _ => ()) (fun _ p => p) pat numEpochs p0 none 0 ()

/-- The epoch loop with a deep-copied snapshot (the behaviour the spec
describes: prediction uses the best-loss-epoch parameters). -/
def train_epochs_deepcopy {P : Type} (f : P → P × List ℚ) (numEpochs pat : ℕ)
    (p0 : P) : P :=
  es_run f id (fun s _ => s) pat numEpochs p0 none 0 p0

/-! ## Determinism infrastructure (source: `set_seed`, `DataLoader`, MC loop)

```python
set_seed(42 + t)  # Vary seed for MC dropout
train_loader = DataLoader(train_dataset, batch_size=batch_size, shuffle=False)
...
for _ in range(mc_samples):
    mc_predictions.append(model(X_pred_tensor).cpu().numpy())
```

`set_seed` seeds `random`, numpy and torch and switches cuDNN to
deterministic mode, so every stochastic draw of a step is a pure function
of the seed; we model the seeded generator as an explicit pure stream
`next : state → value × state` started at the seed.  `DataLoader` with
`shuffle=False` partitions the dataset into consecutive batches of
`batch_size` in the original time order. -/

/-- The seed used at walk-forward step `t`: `set_seed(42 + t)` with base
seed 42. -/
def step_seed (base t : ℕ) : ℕ := base + t

/-- `DataLoader(..., batch_size=bs, shuffle=False)`: consecutive chunks of
size `bs`, in preserved order.  (`bs = 0` is rejected by torch; the
embedding returns `[]` there and all statements assume `0 < bs`.) -/
def make_batches {X : Type} (bs : ℕ) (xs : List X) : List (List X) :=
  if h : bs = 0 ∨ xs.isEmpty then []
  else xs.take bs :: make_batches bs (xs.drop bs)
termination_by xs.length
decreasing_by
  simp only [not_or] at h
  have hx : xs ≠ [] := by
    intro hnil
    exact h.2 (by simp [hnil])
  simp only [List.length_drop]
  exact Nat.sub_lt (List.length_pos.mpr hx) (Nat.pos_of_ne_zero h.1)

/-- `mc_samples` draws from the seeded deterministic generator `next`,
started at `seed`. -/
def mc_draws (next : ℕ → ℚ × ℕ) : ℕ → ℕ → List ℚ
  | _, 0 => []
  | s, m + 1 => (next s).1 :: mc_draws next (next s).2 m

/-- `mc_predictions.mean(axis=0)` for one component. -/
def mc_mean (l : List ℚ) : ℚ := l.sum / l.length

/-- `mc_predictions.std(axis=0) ** 2` for one component (numpy `std` is the
square root of this population variance; equal variances give equal stds). -/
def mc_var (l : List ℚ) : ℚ := (l.map fun x => (x - mc_mean l) ^ 2).sum / l.length

/-! ## Step Result and the directional-accuracy field (source)

```python
dir_acc = None
if pred_idx >= horizon:
    y_true_current = y_all[pred_idx - horizon]
    y_true_future = y_true[0]
    pred_direction = np.sign(y_pred_mean[0] - y_true_current)
    true_direction = np.sign(y_true_future - y_true_current)
    dir_acc = (true_direction == pred_direction).astype(float)
...
dir_acc_all = np.array([res['dir_acc'] for res in results if res['dir_acc'] is not None])
``` -/

/-- The per-asset directional-accuracy field of a Step Result: `none`
(Python `None`) when fewer than `horizon` steps of history exist. -/
def dir_acc_field (hor pred_idx : ℕ) (y_all : List (List ℚ))
    (y_pred_mean y_true_future : List ℚ) : Option (List ℚ) :=
  if hor ≤ pred_idx then
    let y_true_current := y_all.getD (pred_idx - hor) []
    some ((y_pred_mean.zip (y_true_future.zip y_true_current)).map fun e =>
      if signQ (e.2.1 - e.2.2) = signQ (e.1 - e.2.2) then (1 : ℚ) else 0)
  else none

/-- One record of the append-only results list (the fields relevant to the
claims under verification). -/
structure StepResult where
  step : ℕ
  dir_acc : Option (List ℚ)
  vol_pred_port : ℚ
  vol_true_port : ℚ
  weights : List ℚ

/-- The aggregate used by the summary cell: `[res['dir_acc'] for res in
results if res['dir_acc'] is not None]`. -/
def dir_acc_all (results : List StepResult) : List (List ℚ) :=
  results.filterMap (fun res => res.dir_acc)

/-! ## Optimizer freshness across steps (source)

```python
for t in range(n_steps):
    ...
    optimizer = optim.Adam(model.parameters(), lr=learning_rate)   # fresh every step
    ... training mutates model in place ...
```

`optim.Adam` starts with empty state: first/second moment estimates zero
and step count zero for every parameter.  The walk-forward loop constructs
a brand-new optimizer each iteration while the model parameters carry over
warm.  The inner training procedure is abstract
(`train : AdamState → P → AdamState × P`). -/

/-- Adam's per-run internal state (moment estimates and step count). -/
structure AdamState where
  exp_avg : ℚ
  exp_avg_sq : ℚ
  step_count : ℕ
deriving DecidableEq

/-- A freshly constructed `optim.Adam`: zero moments, zero step count. -/
def AdamState.init : AdamState := ⟨0, 0, 0⟩

/-- The walk-forward driver's optimizer/parameter threading: each step
constructs a fresh Adam optimizer over the current parameters and trains;
the trace records, per step, the optimizer state and the parameters with
which training begins. -/
def walk_trace {P : Type} (train : AdamState → P → AdamState × P) :
    ℕ → P → List (AdamState × P)
  | 0, _ => []
  | n + 1, p => (AdamState.init, p) :: walk_trace train n (train AdamState.init p).2

/-- A concrete inner training procedure used only as a witness input: it
bumps the optimizer moments/step count and increments the parameter. -/
def bump_train (s : AdamState) (p : ℚ) : AdamState × ℚ :=
  (⟨s.exp_avg + 1, s.exp_avg_sq, s.step_count + 1⟩, p + 1)

/-- The test vector `x·e_i + e_j`, used to extract the Cauchy–Schwarz bound
from positive semidefiniteness. -/
def twoPoint {A : ℕ} (i j : Fin A) (x : ℚ) : Fin A → ℚ :=
  x • (Pi.single i 1 : Fin A → ℚ) + (Pi.single j 1 : Fin A → ℚ)

/-- The entrywise pseudo-inverse of the std vector (`1/σ_i` where `σ_i ≠ 0`,
else `0`): the sanitized correlation matrix coincides with the conjugation
of the covariance by `std_inv σ`. -/
def std_inv {A : ℕ} (σ : Fin A → ℚ) : Fin A → ℚ :=
  fun i => if σ i = 0 then 0 else (σ i)⁻¹

/-! # Theorems -/

/-- **C3**: for every aligned feature table with `R` rows and every (positive)
window length `L`, `create_sequences` produces exactly `max (R - L) 0`
windows; the `i`-th window's feature tensor is rows `[i, i+L)` of the
feature table (and has length `L`), its target is the target-table row at
index `i + L - 1`, and when `R ≤ L` zero windows are produced and the
pre-loop `assert` fails with the fatal configuration error. -/
theorem C3_create_sequences_spec {F G : Type} [Inhabited G]
    (X : List F) (Y : List G) (L : ℕ) (hL : 0 < L) (hlen : Y.length = X.length) :
    (((create_sequences X Y L).1.length : ℤ) = max ((X.length : ℤ) - L) 0 ∧
      (create_sequences X Y L).2.length = (create_sequences X Y L).1.length) ∧
    (∀ (d : F) (i j : ℕ), i < X.length - L → j < L →
      ((create_sequences X Y L).1.getD i []).getD j d = X.getD (i + j) d ∧
        ((create_sequences X Y L).1.getD i []).length = L) ∧
    (∀ (d : G) (i : ℕ), i < X.length - L →
      (create_sequences X Y L).2.getD i d = Y.getD (i + L - 1) d) ∧
    (X.length ≤ L →
      (create_sequences X Y L).1 = [] ∧
      sequence_guard (create_sequences X Y L).1.length =
        Except.error "No sequences generated!") := by
  refine ⟨⟨?_, ?_⟩, ?_, ?_, ?_⟩
  · simp only [create_sequences, List.length_map, List.length_range]
    omega
  · simp [create_sequences]
  · intro d i j hi hj
    have hwin : (create_sequences X Y L).1.getD i [] = (X.drop i).take L := by
      simp only [create_sequences, List.getD_eq_getElem?_getD, List.getElem?_map,
        List.getElem?_range hi, Option.map_some', Option.getD_some]
    constructor
    · rw [hwin]
      have hjx : i + j < X.length := by omega
      simp only [List.getD_eq_getElem?_getD, List.getElem?_take_of_lt hj,
        List.getElem?_drop]
    · rw [hwin]
      simp only [List.length_take, List.length_drop]
      omega
  · intro d i hi
    have htgt : (create_sequences X Y L).2.getD i d = Y.getD (i + L - 1) default := by
      simp only [create_sequences, List.getD_eq_getElem?_getD, List.getElem?_map,
        List.getElem?_range hi, Option.map_some', Option.getD_some]
    rw [htgt]
    have hb : i + L - 1 < Y.length := by omega
    rw [List.getD_eq_getElem Y default hb, List.getD_eq_getElem Y d hb]
  · intro hRL
    have h0 : X.length - L = 0 := by omega
    constructor
    · simp [create_sequences, h0]
    · simp [create_sequences, h0, sequence_guard]

/-- Witness for C3 at the concrete aligned tables `X = [10, 20, 30]`,
`Y = [1, 2, 3]` and `L = 2`: the hypotheses hold and the single window's
target is `Y` at index `0 + 2 - 1 = 1`, i.e. `2`. -/
theorem C3_create_sequences_spec_witness :
    ((0 : ℕ) < 2 ∧ ([(1 : ℚ), 2, 3] : List ℚ).length = ([(10 : ℚ), 20, 30] : List ℚ).length) ∧
      (create_sequences [(10 : ℚ), 20, 30] [(1 : ℚ), 2, 3] 2).2.getD 0 0 = 2 := by
  refine ⟨⟨by decide, by decide⟩, ?_⟩
  have h := (C3_create_sequences_spec [(10 : ℚ), 20, 30] [(1 : ℚ), 2, 3] 2
    (by decide) (by decide)).2.2.1 0 0 (by decide)
  rw [h]
  decide

/-- **C4**: for every training batch, the composite loss equals the
mean-squared error between predictions and (standardized) true targets plus
`lambda_dir` times a binary cross-entropy term whose logits are
`sign(predicted[:, 1:] − true[:, :-1])` and whose labels are
`(sign(true[:, 1:] − true[:, :-1]) > 0)` — and, as the claim emphasises,
the logits difference predictions against *true* shifted values, not
against other predicted values: the second conjunct separates the two at a
concrete batch (`y_pred = [[0, 1]]`, `y_batch = [[2, 3]]`). -/
theorem C4_composite_loss_spec :
    (∀ (bce : List (List ℚ) → List (List ℚ) → ℚ) (y_pred y_batch : List (List ℚ)),
      composite_loss bce y_pred y_batch =
        mse_loss y_pred y_batch +
          lambda_dir * bce (claim_logits y_pred y_batch) (claim_labels y_batch)) ∧
    pred_dir [[(0 : ℚ), 1]] [[(2 : ℚ), 3]] ≠
      matSign (matSub (colTail [[(0 : ℚ), 1]]) (colInit [[(0 : ℚ), 1]])) := by
  constructor
  · intro bce y_pred y_batch
    rfl
  · norm_num [pred_dir, matSign, matSub, colTail, colInit, signQ]

/-- **C6**: for every (nonempty) finite per-asset predictive standard
deviation vector — entries are standard deviations, hence nonnegative — the
allocation weights `1 / (std + 1e-6)`, normalized by their sum, sum to
exactly 1 and are strictly positive. -/
theorem C6_alloc_weights_sum_one_pos (s : List ℚ) (hne : s ≠ [])
    (hnn : ∀ x ∈ s, 0 ≤ x) :
    (alloc_weights s).sum = 1 ∧ ∀ w ∈ alloc_weights s, 0 < w := by
  have hpos : ∀ y ∈ s.map fun x => 1 / (x + 1 / 1000000), 0 < y := by
    intro y hy
    rcases List.mem_map.mp hy with ⟨x, hx, rfl⟩
    have : (0 : ℚ) < x + 1 / 1000000 := by
      have := hnn x hx
      linarith
    positivity
  have hsum : 0 < (s.map fun x => 1 / (x + 1 / 1000000)).sum :=
    List.sum_pos _ hpos (by simpa using hne)
  constructor
  · show ((s.map fun x => 1 / (x + 1 / 1000000)).map
      fun x => x / (s.map fun x => 1 / (x + 1 / 1000000)).sum).sum = 1
    simp only [div_eq_mul_inv]
    rw [List.sum_map_mul_right, List.map_id']
    exact mul_inv_cancel₀ hsum.ne'
  · intro w hw
    rcases List.mem_map.mp hw with ⟨y, hy, rfl⟩
    exact div_pos (hpos y hy) hsum

/-- Witness for C6 at the concrete std vector `[1, 2]`. -/
theorem C6_alloc_weights_sum_one_pos_witness :
    (([(1 : ℚ), 2] : List ℚ) ≠ [] ∧ ∀ x ∈ ([(1 : ℚ), 2] : List ℚ), 0 ≤ x) ∧
      (alloc_weights [(1 : ℚ), 2]).sum = 1 ∧
        ∀ w ∈ alloc_weights [(1 : ℚ), 2], 0 < w :=
  ⟨⟨by simp, by norm_num⟩,
    C6_alloc_weights_sum_one_pos [(1 : ℚ), 2] (by simp) (by norm_num)⟩

/-- **C9**: for every step whose prediction index has fewer than `horizon`
steps of history, the `dir_acc` field of the Step Result is an explicit
absence (`None`), for all other steps it is present, and the aggregate
statistics list contains exactly the present values — absences are
excluded, not replaced by a sentinel. -/
theorem C9_dir_acc_optional :
    (∀ (hor pred_idx : ℕ) (y_all : List (List ℚ)) (ym yf : List ℚ),
      (pred_idx < hor → dir_acc_field hor pred_idx y_all ym yf = none) ∧
      (hor ≤ pred_idx → (dir_acc_field hor pred_idx y_all ym yf).isSome = true)) ∧
    ∀ (rs : List StepResult) (v : List ℚ),
      v ∈ dir_acc_all rs ↔ ∃ r ∈ rs, r.dir_acc = some v := by
  refine ⟨fun hor p y_all ym yf => ⟨fun h => ?_, fun h => ?_⟩, fun rs v => ?_⟩
  · simp only [dir_acc_field, if_neg (Nat.not_le.mpr h)]
  · simp only [dir_acc_field, if_pos h, Option.isSome_some]
  · simp [dir_acc_all, List.mem_filterMap]

/-- Witness for C9: with `horizon = 7`, at prediction index `3 < 7` the
field is `None`; at prediction index `10 ≥ 7` it is present. -/
theorem C9_dir_acc_optional_witness :
    dir_acc_field 7 3 [] [] [] = none ∧
      (dir_acc_field 7 10 [[(1 : ℚ)]] [(1 : ℚ)] [(1 : ℚ)]).isSome = true :=
  ⟨(C9_dir_acc_optional.1 7 3 [] [] []).1 (by decide),
   (C9_dir_acc_optional.1 7 10 [[(1 : ℚ)]] [(1 : ℚ)] [(1 : ℚ)]).2 (by decide)⟩

/-- The optimizer entering any step of the walk-forward trace is freshly
constructed. -/
theorem walk_trace_fst {P : Type} (train : AdamState → P → AdamState × P)
    (dflt : AdamState × P) :
    ∀ (n t : ℕ) (p0 : P), t < n →
      ((walk_trace train n p0).getD t dflt).1 = AdamState.init := by
  intro n
  induction n with
  | zero => intro t p0 ht; omega
  | succ m ih =>
    intro t p0 ht
    cases t with
    | zero => simp [walk_trace]
    | succ t' =>
      simp only [walk_trace, List.getD_cons_succ]
      exact ih t' _ (by omega)

/-- The parameters entering step `t + 1` are the parameters produced by
training at step `t` (warm carry-over). -/
theorem walk_trace_snd {P : Type} (train : AdamState → P → AdamState × P)
    (dflt : AdamState × P) :
    ∀ (n t : ℕ) (p0 : P), t + 1 < n →
      ((walk_trace train n p0).getD (t + 1) dflt).2 =
        (train AdamState.init ((walk_trace train n p0).getD t dflt).2).2 := by
  intro n
  induction n with
  | zero => intro t p0 ht; omega
  | succ m ih =>
    intro t p0 ht
    cases t with
    | zero =>
      obtain ⟨m', rfl⟩ : ∃ m', m = m' + 1 := ⟨m - 1, by omega⟩
      simp [walk_trace]
    | succ t' =>
      simp only [walk_trace, List.getD_cons_succ]
      exact ih t' _ (by omega)

/-- **C10**: at every walk-forward step a brand-new Adam optimizer (zero
first/second moment estimates, zero step count) is constructed over the
current model parameters, so optimizer state never carries over between
steps, while the model parameters entering step `t + 1` are exactly those
produced by training at step `t` (warm carry-over). -/
theorem C10_fresh_optimizer_warm_params {P : Type}
    (train : AdamState → P → AdamState × P) (n : ℕ) (p0 : P)
    (dflt : AdamState × P) (t : ℕ) (ht : t < n) :
    ((walk_trace train n p0).getD t dflt).1 = AdamState.init ∧
      ((walk_trace train n p0).getD t dflt).1.exp_avg = 0 ∧
      ((walk_trace train n p0).getD t dflt).1.exp_avg_sq = 0 ∧
      ((walk_trace train n p0).getD t dflt).1.step_count = 0 ∧
      (t + 1 < n →
        ((walk_trace train n p0).getD (t + 1) dflt).2 =
          (train AdamState.init ((walk_trace train n p0).getD t dflt).2).2) := by
  have h1 := walk_trace_fst train dflt n t p0 ht
  exact ⟨h1, by rw [h1]; rfl, by rw [h1]; rfl, by rw [h1]; rfl,
    fun ht1 => walk_trace_snd train dflt n t p0 ht1⟩

/-- Witness for C10 at a concrete three-step run with `bump_train`. -/
theorem C10_fresh_optimizer_warm_params_witness :
    (1 : ℕ) < 3 ∧
      ((walk_trace bump_train 3 (0 : ℚ)).getD 1 (AdamState.init, 0)).1 = AdamState.init ∧
      ((walk_trace bump_train 3 (0 : ℚ)).getD 1 (AdamState.init, 0)).1.exp_avg = 0 ∧
      ((walk_trace bump_train 3 (0 : ℚ)).getD 1 (AdamState.init, 0)).1.exp_avg_sq = 0 ∧
      ((walk_trace bump_train 3 (0 : ℚ)).getD 1 (AdamState.init, 0)).1.step_count = 0 ∧
      (1 + 1 < 3 →
        ((walk_trace bump_train 3 (0 : ℚ)).getD (1 + 1) (AdamState.init, 0)).2 =
          (bump_train AdamState.init
            ((walk_trace bump_train 3 (0 : ℚ)).getD 1 (AdamState.init, 0)).2).2) :=
  ⟨by decide,
    C10_fresh_optimizer_warm_params bump_train 3 (0 : ℚ) (AdamState.init, 0) 1 (by decide)⟩

/-- `DataLoader(shuffle=False)` never reorders: concatenating the batches
gives back the dataset in its original time order. -/
theorem make_batches_join {X : Type} (bs : ℕ) (hbs : 0 < bs) (xs : List X) :
    (make_batches bs xs).flatten = xs := by
  suffices H : ∀ (n : ℕ) (xs : List X), xs.length ≤ n → (make_batches bs xs).flatten = xs from
    H xs.length xs le_rfl
  intro n
  induction n with
  | zero =>
    intro xs hlen
    have hnil : xs = [] := List.length_eq_zero.mp (Nat.le_zero.mp hlen)
    subst hnil
    rw [make_batches]
    simp
  | succ m ih =>
    intro xs hlen
    rw [make_batches]
    split
    · rename_i hcond
      rcases hcond with h0 | he
      · omega
      · have hnil : xs = [] := by
          cases xs with
          | nil => rfl
          | cons a l => simp at he
        simp [hnil]
    · rename_i hcond
      simp only [not_or] at hcond
      have hxne : xs ≠ [] := by
        intro hnil
        exact hcond.2 (by simp [hnil])
      rw [List.flatten_cons, ih (xs.drop bs) ?_, List.take_append_drop]
      have hx1 : 1 ≤ xs.length := List.length_pos.mpr hxne
      simp only [List.length_drop]
      omega

/-- **C8**: the run is deterministic as a two-run property.  All stochastic
draws of a step are pure functions of the step seed (the `set_seed` call
fixes every library RNG and forces deterministic kernels; the seeded
generator is modelled as the explicit pure stream `next`).  Under the same
base seed, the per-step seed is `base + t` in both runs, the training
batches are consumed in preserved time order (never shuffled:
`DataLoader(shuffle=False)` chunks concatenate back to the dataset), and
two runs of the Monte-Carlo sampler from equal seeds produce identical
draws, hence identical sample means and (co)variances. -/
theorem C8_determinism_two_run {X : Type} (bs : ℕ) (xs : List X)
    (next : ℕ → ℚ × ℕ) (base t m s1 s2 : ℕ) (hbs : 0 < bs) (hseed : s1 = s2) :
    (make_batches bs xs).flatten = xs ∧
      step_seed base t = base + t ∧
      mc_draws next s1 m = mc_draws next s2 m ∧
      mc_mean (mc_draws next s1 m) = mc_mean (mc_draws next s2 m) ∧
      mc_var (mc_draws next s1 m) = mc_var (mc_draws next s2 m) := by
  subst hseed
  exact ⟨make_batches_join bs hbs xs, rfl, rfl, rfl, rfl⟩

/-- Witness for C8 with batch size 2, a three-element dataset, the counter
stream, and seed `42 + 0` in both runs. -/
theorem C8_determinism_two_run_witness :
    ((0 : ℕ) < 2 ∧ (42 : ℕ) = 42) ∧
      (make_batches 2 [(1 : ℕ), 2, 3]).flatten = [(1 : ℕ), 2, 3] ∧
        step_seed 42 0 = 42 + 0 ∧
        mc_draws (fun s => ((s : ℚ), s + 1)) 42 3 = mc_draws (fun s => ((s : ℚ), s + 1)) 42 3 ∧
        mc_mean (mc_draws (fun s => ((s : ℚ), s + 1)) 42 3) =
          mc_mean (mc_draws (fun s => ((s : ℚ), s + 1)) 42 3) ∧
        mc_var (mc_draws (fun s => ((s : ℚ), s + 1)) 42 3) =
          mc_var (mc_draws (fun s => ((s : ℚ), s + 1)) 42 3) :=
  ⟨⟨by decide, rfl⟩,
    C8_determinism_two_run 2 [(1 : ℕ), 2, 3] (fun s => ((s : ℚ), s + 1)) 42 0 3 42 42
      (by decide) rfl⟩

/-- **C1** (evidence for the code bug): the early-stopping bookkeeping in the
claim is what the code attempts, but the snapshot is taken as
`best_model_state = model.state_dict()` *without* `copy.deepcopy`, and a
PyTorch `state_dict` shares storage with the live parameters, which
`optimizer.step()` mutates in place; the final
`model.load_state_dict(best_model_state)` therefore copies the current
(final-epoch) values into themselves.  At the concrete epoch function
`f p = (p + 1, [99, if p = 0 then 1 else 2])` (parameters count the epochs;
the last-batch loss is `1` in epoch 1 and `2` afterwards, so the best-loss
epoch is epoch 1 and early stopping fires after `patience = 3` bad epochs),
the loop as the code executes it returns the final-epoch parameters `4`,
whereas the deep-copied snapshot the claim describes would restore the
best-loss-epoch parameters `1`. -/
theorem C1_early_stop_restore_is_noop_eval :
    train_epochs_code (fun p => (p + 1, [99, if p = 0 then (1 : ℚ) else 2]))
        num_epochs patience (0 : ℕ) = 4 ∧
      train_epochs_deepcopy (fun p => (p + 1, [99, if p = 0 then (1 : ℚ) else 2]))
        num_epochs patience (0 : ℕ) = 1 ∧
      (4 : ℕ) ≠ 1 :=
  ⟨rfl, rfl, by decide⟩

/-! ## Lemmas about the EW covariance and the correlation sanitizer -/

/-- The `adjust=False` weights are nonnegative for `0 ≤ α ≤ 1`. -/
theorem ewm_w_nonneg {α : ℚ} (h0 : 0 ≤ α) (h1 : α ≤ 1) (n k : ℕ) :
    0 ≤ ewm_w α n k := by
  unfold ewm_w
  split
  · exact pow_nonneg (by linarith) _
  · exact mul_nonneg h0 (pow_nonneg (by linarith) _)

/-- `0 ≤ 2 / (H + 1)`. -/
theorem ewm_alpha_nonneg (H : ℕ) : 0 ≤ ewm_alpha H := by
  unfold ewm_alpha
  positivity

/-- `2 / (H + 1) ≤ 1` whenever `1 ≤ H`. -/
theorem ewm_alpha_le_one {H : ℕ} (hH : 1 ≤ H) : ewm_alpha H ≤ 1 := by
  unfold ewm_alpha
  rw [div_le_one (by positivity)]
  have h : (1 : ℚ) ≤ (H : ℚ) := by exact_mod_cast hH
  linarith

/-- The de-biasing factor is nonnegative. -/
theorem ewm_debias_nonneg (α : ℚ) (n : ℕ) : 0 ≤ ewm_debias α n := by
  unfold ewm_debias
  by_cases hcond : 1 - ∑ k ∈ Finset.range n, ewm_w α n k ^ 2 ≤ 0
  · simp [hcond]
  · simp only [if_neg hcond]
    push_neg at hcond
    exact inv_nonneg.mpr (le_of_lt hcond)

/-- The EW covariance matrix is symmetric. -/
theorem ewm_cov_symm {A : ℕ} (α : ℚ) (xs : List (Fin A → ℚ)) (i j : Fin A) :
    ewm_cov α xs i j = ewm_cov α xs j i := by
  unfold ewm_cov ewm_cov_raw
  congr 1
  refine Finset.sum_congr rfl fun k _ => ?_
  ring

/-- Generic expansion: the quadratic form of a scaled weighted
outer-product-of-deviations matrix is the weighted sum of squared
deviation/test-vector dot products. -/
theorem quad_expand {A n : ℕ} (D : ℚ) (w : ℕ → ℚ) (c : ℕ → Fin A → ℚ) (v : Fin A → ℚ) :
    (∑ i, v i * ∑ j, (D * ∑ k ∈ Finset.range n, w k * c k i * c k j) * v j)
      = D * ∑ k ∈ Finset.range n, w k * (∑ i, v i * c k i) ^ 2 := by
  calc (∑ i, v i * ∑ j, (D * ∑ k ∈ Finset.range n, w k * c k i * c k j) * v j)
      = ∑ i, ∑ j, ∑ k ∈ Finset.range n, D * (w k * (v i * c k i) * (c k j * v j)) := by
        refine Finset.sum_congr rfl fun i _ => ?_
        rw [Finset.mul_sum]
        refine Finset.sum_congr rfl fun j _ => ?_
        simp only [Finset.mul_sum, Finset.sum_mul]
        refine Finset.sum_congr rfl fun k _ => ?_
        ring
    _ = ∑ i, ∑ k ∈ Finset.range n, ∑ j, D * (w k * (v i * c k i) * (c k j * v j)) := by
        refine Finset.sum_congr rfl fun i _ => ?_
        exact Finset.sum_comm
    _ = ∑ k ∈ Finset.range n, ∑ i, ∑ j, D * (w k * (v i * c k i) * (c k j * v j)) :=
        Finset.sum_comm
    _ = D * ∑ k ∈ Finset.range n, w k * (∑ i, v i * c k i) ^ 2 := by
        rw [Finset.mul_sum]
        refine Finset.sum_congr rfl fun k _ => ?_
        rw [pow_two, Finset.sum_mul_sum]
        simp only [Finset.mul_sum]
        refine Finset.sum_congr rfl fun i _ => ?_
        refine Finset.sum_congr rfl fun j _ => ?_
        ring

/-- The quadratic form of the EW covariance matrix expands into a
nonnegatively weighted sum of squares. -/
theorem ewm_cov_quad_eq {A : ℕ} (α : ℚ) (xs : List (Fin A → ℚ)) (v : Fin A → ℚ) :
    Matrix.dotProduct v ((ewm_cov α xs).mulVec v)
      = ewm_debias α xs.length *
        ∑ k ∈ Finset.range xs.length,
          ewm_w α xs.length k *
            (∑ i, v i * (xs.getD k vzero i - ewm_mean α xs i)) ^ 2 := by
  rw [← quad_expand (ewm_debias α xs.length) (ewm_w α xs.length)
    (fun k i => xs.getD k vzero i - ewm_mean α xs i) v]
  simp only [Matrix.dotProduct, Matrix.mulVec, ewm_cov, ewm_cov_raw]

/-- Positive semidefiniteness of the EW covariance matrix (for `0 ≤ α ≤ 1`,
i.e. span at least 1). -/
theorem ewm_cov_quad_nonneg {A : ℕ} {α : ℚ} (h0 : 0 ≤ α) (h1 : α ≤ 1)
    (xs : List (Fin A → ℚ)) (v : Fin A → ℚ) :
    0 ≤ Matrix.dotProduct v ((ewm_cov α xs).mulVec v) := by
  rw [ewm_cov_quad_eq]
  refine mul_nonneg (ewm_debias_nonneg α xs.length) (Finset.sum_nonneg fun k _ => ?_)
  exact mul_nonneg (ewm_w_nonneg h0 h1 _ _) (sq_nonneg _)

/-- The quadratic form at the test vector `x·e_i + e_j`. -/
theorem quad_two_point {A : ℕ} (M : Matrix (Fin A) (Fin A) ℚ) (i j : Fin A) (x : ℚ) :
    Matrix.dotProduct (twoPoint i j x) (M.mulVec (twoPoint i j x))
      = M i i * (x * x) + (M i j + M j i) * x + M j j := by
  unfold twoPoint
  simp only [Matrix.mulVec_add, Matrix.mulVec_smul, Matrix.add_dotProduct,
    Matrix.dotProduct_add, Matrix.smul_dotProduct, Matrix.dotProduct_smul,
    Matrix.mulVec_single, Matrix.single_dotProduct, smul_eq_mul, mul_one]
  ring

/-- Cauchy–Schwarz for a symmetric matrix with nonnegative quadratic form. -/
theorem psd_cs {A : ℕ} (M : Matrix (Fin A) (Fin A) ℚ)
    (hpsd : ∀ v, 0 ≤ Matrix.dotProduct v (M.mulVec v))
    (hsym : ∀ a b, M a b = M b a) (i j : Fin A) :
    M i j ^ 2 ≤ M i i * M j j := by
  have hd : discrim (M i i) (M i j + M j i) (M j j) ≤ 0 := by
    apply discrim_le_zero
    intro x
    have h := hpsd (twoPoint i j x)
    rwa [quad_two_point] at h
  rw [discrim, hsym j i] at hd
  nlinarith [hd]

/-- Transfer of a quadratic form along an entrywise diagonal conjugation. -/
theorem quad_conj {A : ℕ} (C D : Matrix (Fin A) (Fin A) ℚ) (e : Fin A → ℚ)
    (h : ∀ i j, C i j = e i * D i j * e j) (v : Fin A → ℚ) :
    Matrix.dotProduct v (C.mulVec v)
      = Matrix.dotProduct (fun i => e i * v i) (D.mulVec fun i => e i * v i) := by
  simp only [Matrix.dotProduct, Matrix.mulVec]
  refine Finset.sum_congr rfl fun i _ => ?_
  rw [Finset.mul_sum, Finset.mul_sum]
  refine Finset.sum_congr rfl fun j _ => ?_
  rw [h i j]
  ring

/-- Entry formula for `np.diag(d) @ C @ np.diag(d)`. -/
theorem reconstruct_cov_apply {A : ℕ} (d : Fin A → ℚ) (C : Matrix (Fin A) (Fin A) ℚ)
    (i j : Fin A) : reconstruct_cov d C i j = d i * C i j * d j := by
  unfold reconstruct_cov
  rw [Matrix.mul_diagonal, Matrix.diagonal_mul]

/-- Every sanitized entry lies in `[-1, 1]`. -/
theorem sanitize_entry_mem (c d : ℚ) :
    -1 ≤ sanitize_entry c d ∧ sanitize_entry c d ≤ 1 := by
  unfold sanitize_entry
  split
  · split
    · norm_num
    · split <;> norm_num
  · exact ⟨le_min (le_max_right _ _) (by norm_num), min_le_right _ _⟩

/-- The sanitized correlation matrix of a symmetric covariance matrix is
symmetric. -/
theorem corr_matrix_symm {A : ℕ} (cov : Matrix (Fin A) (Fin A) ℚ) (σ : Fin A → ℚ)
    (hsym : ∀ a b, cov a b = cov b a) (i j : Fin A) :
    corr_matrix cov σ i j = corr_matrix cov σ j i := by
  unfold corr_matrix
  rw [hsym i j, mul_comm (σ i) (σ j)]

/-- Diagonal of the sanitized correlation matrix: `1` where the variance is
nonzero, `0` where it vanishes (the `0/0 → NaN → 0` path of the code). -/
theorem corr_matrix_diag {A : ℕ} (cov : Matrix (Fin A) (Fin A) ℚ) (σ : Fin A → ℚ)
    (i : Fin A) (hchar : σ i * σ i = cov i i) :
    (cov i i ≠ 0 → corr_matrix cov σ i i = 1) ∧
      (cov i i = 0 → corr_matrix cov σ i i = 0) := by
  constructor
  · intro hne
    have hσne : σ i * σ i ≠ 0 := by rw [hchar]; exact hne
    unfold corr_matrix sanitize_entry
    rw [if_neg hσne, hchar, div_self hne]
    norm_num
  · intro h0
    have hσ0 : σ i = 0 := by
      have := hchar.trans h0
      exact mul_self_eq_zero.mp this
    unfold corr_matrix sanitize_entry
    rw [hσ0]
    norm_num [h0]

/-- For a positive semidefinite symmetric covariance matrix with `σ` the
(componentwise) square root of its diagonal, the sanitized correlation
matrix coincides with the conjugation of the covariance by the pseudo-inverse
`std_inv σ`: the `0/0` entries of degenerate assets are genuinely zero (by
Cauchy–Schwarz) and the clip never alters an in-range entry. -/
theorem corr_matrix_entry_conj {A : ℕ} (cov : Matrix (Fin A) (Fin A) ℚ)
    (σ : Fin A → ℚ)
    (hpsd : ∀ v, 0 ≤ Matrix.dotProduct v (cov.mulVec v))
    (hsym : ∀ a b, cov a b = cov b a)
    (hσ : ∀ i, 0 ≤ σ i ∧ σ i * σ i = cov i i) (i j : Fin A) :
    corr_matrix cov σ i j = std_inv σ i * cov i j * std_inv σ j := by
  have hcs : cov i j ^ 2 ≤ cov i i * cov j j := psd_cs cov hpsd hsym i j
  by_cases hi : σ i = 0
  · have hii : cov i i = 0 := by rw [← (hσ i).2, hi, mul_zero]
    have hij : cov i j = 0 := by
      have h2 : cov i j ^ 2 ≤ 0 := by rw [hii] at hcs; linarith
      have := sq_nonneg (cov i j)
      have hsq : cov i j ^ 2 = 0 := le_antisymm h2 this
      exact pow_eq_zero_iff (n := 2) (by norm_num) |>.mp hsq
    unfold corr_matrix sanitize_entry std_inv
    rw [hi, hij]
    norm_num
  · by_cases hj : σ j = 0
    · have hjj : cov j j = 0 := by rw [← (hσ j).2, hj, mul_zero]
      have hij : cov i j = 0 := by
        have h2 : cov i j ^ 2 ≤ 0 := by rw [hjj] at hcs; nlinarith [hcs]
        have := sq_nonneg (cov i j)
        have hsq : cov i j ^ 2 = 0 := le_antisymm h2 this
        exact pow_eq_zero_iff (n := 2) (by norm_num) |>.mp hsq
      unfold corr_matrix sanitize_entry std_inv
      rw [hj, hij]
      norm_num
    · have hipos : 0 < σ i := lt_of_le_of_ne (hσ i).1 (Ne.symm hi)
      have hjpos : 0 < σ j := lt_of_le_of_ne (hσ j).1 (Ne.symm hj)
      have hdpos : 0 < σ i * σ j := mul_pos hipos hjpos
      have hsq : cov i j ^ 2 ≤ (σ i * σ j) ^ 2 := by
        calc cov i j ^ 2 ≤ cov i i * cov j j := hcs
          _ = (σ i * σ j) ^ 2 := by rw [← (hσ i).2, ← (hσ j).2]; ring
      have hub : cov i j ≤ σ i * σ j := by nlinarith [hsq, hdpos]
      have hlb : -(σ i * σ j) ≤ cov i j := by nlinarith [hsq, hdpos]
      unfold corr_matrix sanitize_entry std_inv
      rw [if_neg hdpos.ne', if_neg hi, if_neg hj]
      have hmax : max (cov i j / (σ i * σ j)) (-1) = cov i j / (σ i * σ j) := by
        apply max_eq_left
        rw [neg_le, ← neg_div]
        exact div_le_one_of_le₀ (by linarith) hdpos.le
      have hmin : min (cov i j / (σ i * σ j)) 1 = cov i j / (σ i * σ j) := by
        apply min_eq_left
        exact div_le_one_of_le₀ hub hdpos.le
      rw [hmax, hmin]
      field_simp

/-- The quadratic form of any diagonal conjugation of the sanitized
correlation matrix of a PSD covariance matrix is nonnegative. -/
theorem sanitized_quad_nonneg {A : ℕ} (cov : Matrix (Fin A) (Fin A) ℚ)
    (σ : Fin A → ℚ)
    (hpsd : ∀ v, 0 ≤ Matrix.dotProduct v (cov.mulVec v))
    (hsym : ∀ a b, cov a b = cov b a)
    (hσ : ∀ i, 0 ≤ σ i ∧ σ i * σ i = cov i i)
    (d w : Fin A → ℚ) :
    0 ≤ port_var w (reconstruct_cov d (corr_matrix cov σ)) := by
  unfold port_var
  rw [quad_conj (reconstruct_cov d (corr_matrix cov σ)) (corr_matrix cov σ) d
    (fun i j => reconstruct_cov_apply d (corr_matrix cov σ) i j) w]
  rw [quad_conj (corr_matrix cov σ) cov (std_inv σ)
    (fun i j => corr_matrix_entry_conj cov σ hpsd hsym hσ i j) _]
  exact hpsd _

/-- **C2 counterexample**: on a constant (degenerate) return series every
rolling sum is constant, the EW variance is `0`, hence the diagonal entry of
the sanitized correlation matrix is `0/0 → NaN → 0`, not `1`.  Concretely:
one asset, `H = 2`, `L = 1`, `pred_idx = 1`, log returns `[1, 1, 1]`, and
`σ = 0` — which is exactly `np.sqrt` of the zero variance, so the std-vector
hypothesis of the claim holds — yet the diagonal entry is `≠ 1`. -/
theorem C2_unit_diagonal_fails_on_constant_series :
    (0 ≤ (vzero : Fin 1 → ℚ) 0 ∧
        (vzero : Fin 1 → ℚ) 0 * (vzero : Fin 1 → ℚ) 0 =
          cov_estimate (fun x => x) 2 1 1
            ([fun _ => (1 : ℚ), fun _ => 1, fun _ => 1] : List (Fin 1 → ℚ)) 0 0) ∧
      corr_matrix
          (cov_estimate (fun x => x) 2 1 1
            ([fun _ => (1 : ℚ), fun _ => 1, fun _ => 1] : List (Fin 1 → ℚ)))
          (vzero : Fin 1 → ℚ) 0 0 ≠ 1 := by
  have hcov : cov_estimate (fun x => x) 2 1 1
      ([fun _ => (1 : ℚ), fun _ => 1, fun _ => 1] : List (Fin 1 → ℚ)) 0 0 = 0 := by
    norm_num [cov_estimate, ewm_cov, ewm_cov_raw, ewm_mean, ewm_debias, ewm_w, ewm_alpha,
      rolling_sums, vzero, List.range_succ, Finset.sum_range_succ, Finset.sum_range_zero]
  constructor
  · refine ⟨le_rfl, ?_⟩
    rw [hcov]
    norm_num [vzero]
  · have hc : corr_matrix
        (cov_estimate (fun x => x) 2 1 1
          ([fun _ => (1 : ℚ), fun _ => 1, fun _ => 1] : List (Fin 1 → ℚ)))
        (vzero : Fin 1 → ℚ) 0 0 = 0 := by
      unfold corr_matrix
      rw [hcov]
      norm_num [sanitize_entry, vzero]
    rw [hc]
    norm_num

/-- **C2 amended**: for every input return series and every walk-forward
position, the sanitized correlation matrix is symmetric and has every entry
in `[-1, 1]`; its diagonal entry is `1` for every asset whose EW variance
is nonzero, and `0` (not `1`) for a degenerate asset with zero EW variance
(the `0/0 → NaN → 0` sanitization path). -/
theorem C2_corr_matrix_properties_amended {A : ℕ} (g : ℚ → ℚ) (H L pred_idx : ℕ)
    (r : List (Fin A → ℚ)) (σ : Fin A → ℚ)
    (hσ : ∀ i, 0 ≤ σ i ∧ σ i * σ i = cov_estimate g H L pred_idx r i i) :
    (∀ i j, corr_matrix (cov_estimate g H L pred_idx r) σ i j
        = corr_matrix (cov_estimate g H L pred_idx r) σ j i) ∧
      (∀ i j, -1 ≤ corr_matrix (cov_estimate g H L pred_idx r) σ i j ∧
        corr_matrix (cov_estimate g H L pred_idx r) σ i j ≤ 1) ∧
      (∀ i, (cov_estimate g H L pred_idx r i i ≠ 0 →
          corr_matrix (cov_estimate g H L pred_idx r) σ i i = 1) ∧
        (cov_estimate g H L pred_idx r i i = 0 →
          corr_matrix (cov_estimate g H L pred_idx r) σ i i = 0)) :=
  ⟨fun i j => corr_matrix_symm _ σ (fun a b => ewm_cov_symm _ _ a b) i j,
    fun _ _ => sanitize_entry_mem _ _,
    fun i => corr_matrix_diag _ σ i (hσ i).2⟩

/-- Witness for the amended C2, at the degenerate constant-series input of
the counterexample (there the diagonal lands in the `variance = 0 → 0`
case). -/
theorem C2_corr_matrix_properties_amended_witness :
    (∀ i : Fin 1, 0 ≤ (vzero : Fin 1 → ℚ) i ∧
        vzero i * vzero i =
          cov_estimate (fun x => x) 2 1 1
            ([fun _ => (1 : ℚ), fun _ => 1, fun _ => 1] : List (Fin 1 → ℚ)) i i) ∧
      ((∀ i j : Fin 1, corr_matrix
            (cov_estimate (fun x => x) 2 1 1
              ([fun _ => (1 : ℚ), fun _ => 1, fun _ => 1] : List (Fin 1 → ℚ)))
            (vzero : Fin 1 → ℚ) i j
          = corr_matrix
              (cov_estimate (fun x => x) 2 1 1
                ([fun _ => (1 : ℚ), fun _ => 1, fun _ => 1] : List (Fin 1 → ℚ)))
              (vzero : Fin 1 → ℚ) j i) ∧
        (∀ i j : Fin 1, -1 ≤ corr_matrix
              (cov_estimate (fun x => x) 2 1 1
                ([fun _ => (1 : ℚ), fun _ => 1, fun _ => 1] : List (Fin 1 → ℚ)))
              (vzero : Fin 1 → ℚ) i j ∧
          corr_matrix
              (cov_estimate (fun x => x) 2 1 1
                ([fun _ => (1 : ℚ), fun _ => 1, fun _ => 1] : List (Fin 1 → ℚ)))
              (vzero : Fin 1 → ℚ) i j ≤ 1) ∧
        (∀ i : Fin 1, (cov_estimate (fun x => x) 2 1 1
              ([fun _ => (1 : ℚ), fun _ => 1, fun _ => 1] : List (Fin 1 → ℚ)) i i ≠ 0 →
            corr_matrix
                (cov_estimate (fun x => x) 2 1 1
                  ([fun _ => (1 : ℚ), fun _ => 1, fun _ => 1] : List (Fin 1 → ℚ)))
                (vzero : Fin 1 → ℚ) i i = 1) ∧
          (cov_estimate (fun x => x) 2 1 1
              ([fun _ => (1 : ℚ), fun _ => 1, fun _ => 1] : List (Fin 1 → ℚ)) i i = 0 →
            corr_matrix
                (cov_estimate (fun x => x) 2 1 1
                  ([fun _ => (1 : ℚ), fun _ => 1, fun _ => 1] : List (Fin 1 → ℚ)))
                (vzero : Fin 1 → ℚ) i i = 0))) := by
  have hhyp : ∀ i : Fin 1, 0 ≤ (vzero : Fin 1 → ℚ) i ∧
      vzero i * vzero i =
        cov_estimate (fun x => x) 2 1 1
          ([fun _ => (1 : ℚ), fun _ => 1, fun _ => 1] : List (Fin 1 → ℚ)) i i := by
    intro i
    have hi : i = 0 := Subsingleton.elim i 0
    subst hi
    refine ⟨le_rfl, ?_⟩
    norm_num [cov_estimate, ewm_cov, ewm_cov_raw, ewm_mean, ewm_debias, ewm_w, ewm_alpha,
      rolling_sums, vzero, List.range_succ, Finset.sum_range_succ, Finset.sum_range_zero]
  exact ⟨hhyp, C2_corr_matrix_properties_amended (fun x => x) 2 1 1 _ _ hhyp⟩

/-- **C5 counterexample**: the code aggregates with *overlapping* rolling
`H`-day sums over a window reaching past the anchor, not the non-overlapping
sums up to the anchor the claim describes.  With one asset, `H = 2`,
`L = 1`, `pred_idx = 3` and log returns `[0, 1, 2, 3, 4]`, the code's
aggregated series is the four overlapping sums `[1, 3, 5, 7]` (EW variance
`> 0`), while the claim's series is the single non-overlapping sum `[1]` of
the history up to the anchor (EW variance `0`, pandas' NaN for one
observation): the two covariance estimates differ. -/
theorem C5_nonoverlapping_aggregation_fails :
    cov_estimate (fun x => x) 2 1 3
        ([fun _ => (0 : ℚ), fun _ => 1, fun _ => 2, fun _ => 3, fun _ => 4] :
          List (Fin 1 → ℚ))
      ≠ cov_estimate_claim (fun x => x) 2 1 3
        ([fun _ => (0 : ℚ), fun _ => 1, fun _ => 2, fun _ => 3, fun _ => 4] :
          List (Fin 1 → ℚ)) := by
  intro h
  have h00 := congrFun (congrFun h 0) 0
  have hclaim : cov_estimate_claim (fun x => x) 2 1 3
      ([fun _ => (0 : ℚ), fun _ => 1, fun _ => 2, fun _ => 3, fun _ => 4] :
        List (Fin 1 → ℚ)) 0 0 = 0 := by
    norm_num [cov_estimate_claim, ewm_cov, ewm_cov_raw, ewm_mean, ewm_debias, ewm_w,
      ewm_alpha, chunk_sums, vzero, List.range_succ, Finset.sum_range_succ,
      Finset.sum_range_zero]
  have hcode : cov_estimate (fun x => x) 2 1 3
      ([fun _ => (0 : ℚ), fun _ => 1, fun _ => 2, fun _ => 3, fun _ => 4] :
        List (Fin 1 → ℚ)) 0 0 ≠ 0 := by
    norm_num [cov_estimate, ewm_cov, ewm_cov_raw, ewm_mean, ewm_debias, ewm_w,
      ewm_alpha, rolling_sums, vzero, List.range_succ, Finset.sum_range_succ,
      Finset.sum_range_zero]
  exact hcode (h00.trans hclaim)

/-- **C5 amended**: at every walk-forward step the covariance estimate is
computed from *overlapping* rolling `H`-day sums of the log-return history
(one sum per day), truncated to the first `pred_idx + L` sums, converted to
simple returns pointwise (`exp(x) − 1`, carried abstractly as `g`), with the
final-time EW (span `H`) covariance slice taken; the last rolling sum used
covers log returns `H` days beyond the recorded anchor date (`r`-indices
`pred_idx + L - 1, …, pred_idx + L + H - 2`, while the recorded anchor is
`r`-index `pred_idx + L - 2`). -/
theorem C5_correlation_pipeline_amended {A : ℕ} (g : ℚ → ℚ) (H L pred_idx : ℕ)
    (r : List (Fin A → ℚ)) (hH : 1 ≤ H) (hpl : 1 ≤ pred_idx + L)
    (hr : pred_idx + L + H - 1 ≤ r.length) :
    cov_estimate g H L pred_idx r = cov_estimate_amended g H L pred_idx r ∧
      ((rolling_sums H r).take (pred_idx + L)).getLast?
        = some fun i => ∑ k ∈ Finset.range H, r.getD (pred_idx + L - 1 + k) vzero i := by
  refine ⟨rfl, ?_⟩
  have hlen : (rolling_sums H r).length = r.length + 1 - H := by
    simp [rolling_sums]
  have htlen : ((rolling_sums H r).take (pred_idx + L)).length = pred_idx + L := by
    rw [List.length_take, hlen]
    omega
  rw [List.getLast?_eq_getElem?, htlen]
  rw [List.getElem?_take_of_lt (by omega)]
  unfold rolling_sums
  rw [List.getElem?_map, List.getElem?_range (by omega)]
  rfl

/-- Witness for the amended C5 at one asset, `H = 2`, `L = 1`,
`pred_idx = 1`, log returns `[1, 2, 3]`. -/
theorem C5_correlation_pipeline_amended_witness :
    ((1 : ℕ) ≤ 2 ∧ (1 : ℕ) ≤ 1 + 1 ∧ 1 + 1 + 2 - 1 ≤
        ([fun _ => (1 : ℚ), fun _ => 2, fun _ => 3] : List (Fin 1 → ℚ)).length) ∧
      (cov_estimate (fun x => x) 2 1 1
          ([fun _ => (1 : ℚ), fun _ => 2, fun _ => 3] : List (Fin 1 → ℚ))
        = cov_estimate_amended (fun x => x) 2 1 1
          ([fun _ => (1 : ℚ), fun _ => 2, fun _ => 3] : List (Fin 1 → ℚ)) ∧
        ((rolling_sums 2
            ([fun _ => (1 : ℚ), fun _ => 2, fun _ => 3] : List (Fin 1 → ℚ))).take
              (1 + 1)).getLast?
          = some fun i => ∑ k ∈ Finset.range 2,
              ([fun _ => (1 : ℚ), fun _ => 2, fun _ => 3] :
                List (Fin 1 → ℚ)).getD (1 + 1 - 1 + k) vzero i) :=
  ⟨⟨by decide, by decide, by decide⟩,
    C5_correlation_pipeline_amended (fun x => x) 2 1 1
      ([fun _ => (1 : ℚ), fun _ => 2, fun _ => 3] : List (Fin 1 → ℚ))
      (by decide) (by decide) (by decide)⟩

/-- **C7**: at every step, the square-root arguments of the predicted and
true portfolio volatilities — the quadratic forms of the allocation weights
against `D_pred·Corr·D_pred` and `D_true·Corr·D_true`, both reconstructed
from the *same single* sanitized correlation matrix — are nonnegative, so
the square roots are nonnegative reals and never NaN from a negative
radicand.  This holds for every weight vector and every (even negative)
predicted/true volatility diagonal, because the sanitized correlation
matrix of the (positive semidefinite) EW covariance estimate is itself
positive semidefinite. -/
theorem C7_portfolio_variance_nonneg {A : ℕ} (g : ℚ → ℚ) (H L pred_idx : ℕ)
    (r : List (Fin A → ℚ)) (σ d_pred d_true w : Fin A → ℚ) (hH : 1 ≤ H)
    (hσ : ∀ i, 0 ≤ σ i ∧ σ i * σ i = cov_estimate g H L pred_idx r i i) :
    0 ≤ port_var w
        (reconstruct_cov d_pred (corr_matrix (cov_estimate g H L pred_idx r) σ)) ∧
      0 ≤ port_var w
        (reconstruct_cov d_true (corr_matrix (cov_estimate g H L pred_idx r) σ)) := by
  have hpsd : ∀ v, 0 ≤ Matrix.dotProduct v ((cov_estimate g H L pred_idx r).mulVec v) :=
    fun v => ewm_cov_quad_nonneg (ewm_alpha_nonneg H) (ewm_alpha_le_one hH) _ v
  have hsym : ∀ a b, cov_estimate g H L pred_idx r a b = cov_estimate g H L pred_idx r b a :=
    fun a b => ewm_cov_symm _ _ a b
  exact ⟨sanitized_quad_nonneg _ σ hpsd hsym hσ d_pred w,
    sanitized_quad_nonneg _ σ hpsd hsym hσ d_true w⟩

/-- Witness for C7 at the constant-series input with weights `1` and
volatility diagonals `5` (predicted) and `3` (true). -/
theorem C7_portfolio_variance_nonneg_witness :
    ((1 : ℕ) ≤ 2 ∧
      (∀ i : Fin 1, 0 ≤ (vzero : Fin 1 → ℚ) i ∧
        vzero i * vzero i =
          cov_estimate (fun x => x) 2 1 1
            ([fun _ => (1 : ℚ), fun _ => 1, fun _ => 1] : List (Fin 1 → ℚ)) i i)) ∧
      (0 ≤ port_var (fun _ => 1)
          (reconstruct_cov (fun _ => 5)
            (corr_matrix
              (cov_estimate (fun x => x) 2 1 1
                ([fun _ => (1 : ℚ), fun _ => 1, fun _ => 1] : List (Fin 1 → ℚ)))
              (vzero : Fin 1 → ℚ))) ∧
        0 ≤ port_var (fun _ => 1)
          (reconstruct_cov (fun _ => 3)
            (corr_matrix
              (cov_estimate (fun x => x) 2 1 1
                ([fun _ => (1 : ℚ), fun _ => 1, fun _ => 1] : List (Fin 1 → ℚ)))
              (vzero : Fin 1 → ℚ)))) := by
  have hhyp : ∀ i : Fin 1, 0 ≤ (vzero : Fin 1 → ℚ) i ∧
      vzero i * vzero i =
        cov_estimate (fun x => x) 2 1 1
          ([fun _ => (1 : ℚ), fun _ => 1, fun _ => 1] : List (Fin 1 → ℚ)) i i := by
    intro i
    have hi : i = 0 := Subsingleton.elim i 0
    subst hi
    refine ⟨le_rfl, ?_⟩
    norm_num [cov_estimate, ewm_cov, ewm_cov_raw, ewm_mean, ewm_debias, ewm_w, ewm_alpha,
      rolling_sums, vzero, List.range_succ, Finset.sum_range_succ, Finset.sum_range_zero]
  exact ⟨⟨by decide, hhyp⟩,
    C7_portfolio_variance_nonneg (fun x => x) 2 1 1 _ _ _ _ _ (by decide) hhyp⟩


end RiskModel
